import Mathlib

/-!
Verification of the Markdown-link rewriting state machine of
`zim2obsidian.py` (class `MdLinkParser`), shallowly embedded in Lean.
Strings are modelled as lists of characters; the parser's `results`
list (a Python list of characters and strings) is modelled as a list
of character lists, joined at the end.  The `)`-handler calls
`urlparse`, which can raise `ValueError` (for example `Invalid IPv6
URL`); that error path is modelled by `Option`: `none` is an
exception propagating out of `feed`/`to_wikilinks`.
-/

namespace Zim

/-- Parser states of `MdLinkParser`: BODY, DESC, LINK, ADDRESS. -/
inductive PState where
  | BODY
  | DESC
  | LINK
  | ADDRESS
deriving DecidableEq, Repr

/-- Instance fields of `MdLinkParser`: the accumulated output fragments,
the description buffer, the address buffer and the current state. -/
structure MdLinkParser where
  results : List (List Char)
  descBuffer : List Char
  addrBuffer : List Char
  state : PState
deriving DecidableEq, Repr

/-- Freshly constructed parser (`MdLinkParser.__init__`). -/
def MdLinkParser.init : MdLinkParser :=
  { results := [], descBuffer := [], addrBuffer := [], state := .BODY }

/-- Hexadecimal digits accepted by `urllib.parse.unquote` and by
`ipaddress` hextets (`0123456789abcdefABCDEF`). -/
def isHexDigit (c : Char) : Bool :=
  ('0' ≤ c && c ≤ '9') || ('a' ≤ c && c ≤ 'f') || ('A' ≤ c && c ≤ 'F')

/-- Numeric value of a hexadecimal digit. -/
def hexVal (c : Char) : Nat :=
  if '0' ≤ c && c ≤ '9' then c.toNat - '0'.toNat
  else if 'a' ≤ c && c ≤ 'f' then c.toNat - 'a'.toNat + 10
  else if 'A' ≤ c && c ≤ 'F' then c.toNat - 'A'.toNat + 10
  else 0

/-- UTF-8 continuation byte (0x80-0xBF). -/
def isContByte (b : Nat) : Bool := 0x80 ≤ b && b ≤ 0xBF

/-- Unicode replacement character, emitted by Python's `errors='replace'`. -/
def replChar : Char := Char.ofNat 0xFFFD

/-- UTF-8 decoding of a byte list with Python's `errors='replace'` policy
(one replacement character per maximal ill-formed subpart), written with
explicit fuel; the fuel argument is at least the list length at every call. -/
def utf8DecodeAux : Nat → List Nat → List Char
  | 0, _ => []
  | _ + 1, [] => []
  | fuel + 1, b :: bs =>
    if b ≤ 0x7F then Char.ofNat b :: utf8DecodeAux fuel bs
    else if 0xC2 ≤ b && b ≤ 0xDF then
      match bs with
      | b1 :: bs1 =>
        if isContByte b1 then
          Char.ofNat ((b - 0xC0) * 0x40 + (b1 - 0x80)) :: utf8DecodeAux fuel bs1
        else replChar :: utf8DecodeAux fuel bs
      | [] => [replChar]
    else if 0xE0 ≤ b && b ≤ 0xEF then
      match bs with
      | b1 :: bs1 =>
        if (if b = 0xE0 then 0xA0 else 0x80) ≤ b1
            && b1 ≤ (if b = 0xED then 0x9F else 0xBF) then
          match bs1 with
          | b2 :: bs2 =>
            if isContByte b2 then
              Char.ofNat ((b - 0xE0) * 0x1000 + (b1 - 0x80) * 0x40 + (b2 - 0x80))
                :: utf8DecodeAux fuel bs2
            else replChar :: utf8DecodeAux fuel bs1
          | [] => [replChar]
        else replChar :: utf8DecodeAux fuel bs
      | [] => [replChar]
    else if 0xF0 ≤ b && b ≤ 0xF4 then
      match bs with
      | b1 :: bs1 =>
        if (if b = 0xF0 then 0x90 else 0x80) ≤ b1
            && b1 ≤ (if b = 0xF4 then 0x8F else 0xBF) then
          match bs1 with
          | b2 :: bs2 =>
            if isContByte b2 then
              match bs2 with
              | b3 :: bs3 =>
                if isContByte b3 then
                  Char.ofNat ((b - 0xF0) * 0x40000 + (b1 - 0x80) * 0x1000
                      + (b2 - 0x80) * 0x40 + (b3 - 0x80))
                    :: utf8DecodeAux fuel bs3
                else replChar :: utf8DecodeAux fuel bs2
              | [] => [replChar]
            else replChar :: utf8DecodeAux fuel bs1
          | [] => [replChar]
        else replChar :: utf8DecodeAux fuel bs
      | [] => [replChar]
    else replChar :: utf8DecodeAux fuel bs

/-- UTF-8 decoding with replacement; each step of the helper consumes at
least one byte, so the length is enough fuel. -/
def utf8Decode (bs : List Nat) : List Char := utf8DecodeAux bs.length bs

/-- Intermediate token of `unquote`: either a byte obtained from an ASCII
character or a percent escape, or a non-ASCII character passed through. -/
inductive UQToken where
  | byte (b : Nat)
  | raw (c : Char)
deriving DecidableEq, Repr

/-- Percent-escape scanning of `urllib.parse.unquote` / `unquote_to_bytes`:
a `%` followed by two hex digits becomes one byte; any other `%` and every
other ASCII character become their own byte; non-ASCII characters are kept
as characters (they are never part of a percent escape). -/
def pctTokens : List Char → List UQToken
  | [] => []
  | '%' :: a :: b :: rest1 =>
    if isHexDigit a && isHexDigit b then
      .byte (hexVal a * 16 + hexVal b) :: pctTokens rest1
    else .byte 37 :: pctTokens (a :: b :: rest1)
  | '%' :: rest => .byte 37 :: pctTokens rest
  | c :: rest =>
    (if c.toNat ≤ 0x7F then UQToken.byte c.toNat else UQToken.raw c) :: pctTokens rest

/-- Decoding of the token stream: maximal runs of bytes (the pending
accumulator holds the current run, in reverse) are UTF-8 decoded with
replacement; raw characters are passed through. -/
def tokensDecode : List UQToken → List Nat → List Char
  | [], pend => utf8Decode pend.reverse
  | .byte b :: rest, pend => tokensDecode rest (b :: pend)
  | .raw c :: rest, pend => utf8Decode pend.reverse ++ c :: tokensDecode rest []

/-- Model of `urllib.parse.unquote` with the default UTF-8 encoding and
`errors='replace'`: ASCII runs are percent-decoded to bytes and then UTF-8
decoded; non-ASCII characters pass through unchanged. -/
def unquote (s : List Char) : List Char := tokensDecode (pctTokens s) []

/-- Model of `str.replace(':', '/')` as used on the synthesized address. -/
def colonToSlash (s : List Char) : List Char :=
  s.map fun c => if c = ':' then '/' else c

/-- Model of `str.removeprefix('./')`: drop one leading `./` if present. -/
def dropDotSlash : List Char → List Char
  | '.' :: '/' :: rest => rest
  | s => s

/-- ASCII letter (`url[0].isascii() and url[0].isalpha()`). -/
def isAsciiAlpha (c : Char) : Bool :=
  ('a' ≤ c && c ≤ 'z') || ('A' ≤ c && c ≤ 'Z')

/-- ASCII decimal digit. -/
def isAsciiDigit (c : Char) : Bool := '0' ≤ c && c ≤ '9'

/-- ASCII character (code point at most 0x7F). -/
def isAsciiChar (c : Char) : Bool := c.toNat ≤ 0x7F

/-- Characters allowed in a URL scheme
(`scheme_chars` of `urllib.parse`: letters, digits, `+`, `-`, `.`). -/
def isSchemeChar (c : Char) : Bool :=
  isAsciiAlpha c || isAsciiDigit c || c = '+' || c = '-' || c = '.'

/-- WHATWG C0 control or space (code points 0x00-0x20), stripped from the
left of the URL by `urlsplit`. -/
def isC0OrSpace (c : Char) : Bool := c.toNat ≤ 0x20

/-- The bytes `urlsplit` removes everywhere
(`_UNSAFE_URL_BYTES_TO_REMOVE = ['\t', '\r', '\n']`). -/
def isUnsafeUrlByte (c : Char) : Bool := c = '\t' || c = '\r' || c = '\n'

/-- Preprocessing of `urlsplit`: left-strip C0 controls and spaces, then
remove every tab, carriage return and line feed. -/
def urlPreprocess (s : List Char) : List Char :=
  (s.dropWhile isC0OrSpace).filter fun c => !isUnsafeUrlByte c

/-- Scan for the colon ending a URL scheme: the characters before the
first `:` must all be scheme characters; returns them and the rest. -/
def schemeScan : List Char → Option (List Char × List Char)
  | [] => none
  | c :: rest =>
    if c = ':' then some ([], rest)
    else if isSchemeChar c then (schemeScan rest).map fun pr => (c :: pr.1, pr.2)
    else none

/-- Scheme splitting of `urlsplit`: a scheme is recognized when the URL
starts with an ASCII letter followed by scheme characters up to a `:`;
the scheme is lowercased and the `:` consumed, otherwise the URL is kept
whole and the scheme is empty. -/
def splitScheme (u : List Char) : List Char × List Char :=
  match u with
  | [] => ([], [])
  | c :: rest =>
    if isAsciiAlpha c then
      match schemeScan rest with
      | some (s, r) => ((c :: s).map Char.toLower, r)
      | none => ([], c :: rest)
    else ([], c :: rest)

/-- Netloc extraction of `_splitnetloc`: the characters up to the first
`/`, `?` or `#`. -/
def takeNetloc (l : List Char) : List Char :=
  l.takeWhile fun c => !(c = '/' || c = '?' || c = '#')

/-- Python `str.split(sep)` on a character: always returns at least one
(possibly empty) piece. -/
def splitOnChar (sep : Char) : List Char → List (List Char)
  | [] => [[]]
  | c :: rest =>
    let r := splitOnChar sep rest
    if c = sep then [] :: r
    else
      match r with
      | h :: t => (c :: h) :: t
      | [] => [[c]]

/-- Everything after the first occurrence of a character
(`str.partition(c)[2]`; empty when the character is absent). -/
def afterFirst (c : Char) (l : List Char) : List Char :=
  (l.dropWhile (· ≠ c)).drop 1

/-- Everything before the first occurrence of a character
(`str.partition(c)[0]`; the whole string when the character is absent). -/
def beforeFirst (c : Char) (l : List Char) : List Char :=
  l.takeWhile (· ≠ c)

/-- Decimal value of a digit string. -/
def decimalVal (o : List Char) : Nat :=
  o.foldl (fun n c => n * 10 + (c.toNat - '0'.toNat)) 0

/-- Validity of one IPv4 octet per `ipaddress._parse_octet`: non-empty,
ASCII digits only, at most 3 characters, no leading zero, at most 255. -/
def ipv4OctetOk (o : List Char) : Bool :=
  !o.isEmpty && o.all isAsciiDigit && decide (o.length ≤ 3)
    && (o == ['0'] || !(o.head? == some '0')) && decide (decimalVal o ≤ 255)

/-- Validity of an IPv4 address string per `ipaddress.IPv4Address`: no
`/`, exactly four valid octets separated by dots. -/
def ipv4Ok (s : List Char) : Bool :=
  !s.contains '/'
    && (let octs := splitOnChar '.' s
        decide (octs.length = 4) && octs.all ipv4OctetOk)

/-- Validity of one IPv6 hextet per `ipaddress._parse_hextet`: non-empty,
hex digits only, at most 4 characters. -/
def hextetOk (h : List Char) : Bool :=
  !h.isEmpty && h.all isHexDigit && decide (h.length ≤ 4)

/-- IPv4-style suffix handling of `_ip_int_from_string`: when the last
part contains a dot it must be a valid IPv4 address and is replaced by
two (always valid) hextets. -/
def processV4Suffix (parts : List (List Char)) : Option (List (List Char)) :=
  match parts.getLast? with
  | none => some parts
  | some last =>
    if last.contains '.' then
      if ipv4Ok last then some (parts.dropLast ++ [['0'], ['0']]) else none
    else some parts

/-- The `::` skip logic and hextet parsing of `_ip_int_from_string`: at
most one empty interior part; an empty endpoint is only allowed adjacent
to the skip; without a skip exactly 8 non-empty parts; the parts copied
from before and after the skip must be valid hextets. -/
def ipv6PartsOk (parts : List (List Char)) : Bool :=
  let n := parts.length
  let empties := (List.range n).filter fun i =>
    decide (0 < i) && decide (i < n - 1) && (parts.getD i []).isEmpty
  match empties with
  | [] =>
    decide (n = 8) && !(parts.getD 0 []).isEmpty && !(parts.getD (n - 1) []).isEmpty
      && parts.all hextetOk
  | [skip] =>
    let firstEmpty := (parts.getD 0 []).isEmpty
    let lastEmpty := (parts.getD (n - 1) []).isEmpty
    let hi := if firstEmpty then skip - 1 else skip
    let lo := if lastEmpty then n - skip - 2 else n - skip - 1
    (!firstEmpty || decide (hi = 0)) && (!lastEmpty || decide (lo = 0))
      && decide (hi + lo ≤ 7)
      && (parts.take hi).all hextetOk && (parts.drop (n - lo)).all hextetOk
  | _ => false

/-- Validity of an IPv6 address string per `ipaddress.IPv6Address`: no
`/`; an optional non-empty scope id after a single `%`; at least two
colons; optional IPv4 suffix; at most 9 parts; valid skip and hextets. -/
def ipv6Ok (s : List Char) : Bool :=
  if s.contains '/' then false
  else
    let addr := beforeFirst '%' s
    let scopeOk :=
      if s.contains '%' then
        let scope := afterFirst '%' s
        !scope.isEmpty && !scope.contains '%'
      else true
    if !scopeOk then false
    else if addr.isEmpty then false
    else
      let parts := splitOnChar ':' addr
      if decide (parts.length < 3) then false
      else
        match processV4Suffix parts with
        | none => false
        | some parts1 => decide (parts1.length ≤ 9) && ipv6PartsOk parts1

/-- The IPvFuture check of `_check_bracketed_host`: full match of
`v[a-fA-F0-9]+\..+` where the dot-part is one or more characters other
than a line feed. -/
def ipvFutureOk (h : List Char) : Bool :=
  match h with
  | 'v' :: t =>
    let pre := t.takeWhile isHexDigit
    !pre.isEmpty
      && (match t.drop pre.length with
          | '.' :: r => !r.isEmpty && !r.contains '\n'
          | _ => false)
  | _ => false

/-- `_check_bracketed_host`: a bracketed host starting with `v` must be
an IPvFuture address; otherwise it must parse as an IP address and not be
IPv4; returns true when no `ValueError` is raised. -/
def checkBracketedHost (h : List Char) : Bool :=
  if h.head? == some 'v' then ipvFutureOk h
  else if ipv4Ok h then false
  else ipv6Ok h

/-- Code points whose NFKC image contains one of `/ ? # @ :` (computed
from the Unicode data used by CPython); canonical composition cannot
produce ASCII, so a character-wise check matches `_checknetloc`'s check
on the normalized string. -/
def nfkcSpecialCodes : List Nat :=
  [0x23, 0x2F, 0x3A, 0x3F, 0x40, 0x2047, 0x2048, 0x2049, 0x2100, 0x2101, 0x2105,
   0x2106, 0x2A74, 0xFE13, 0xFE16, 0xFE55, 0xFE56, 0xFE5F, 0xFE6B, 0xFF03, 0xFF0F,
   0xFF1A, 0xFF1F, 0xFF20]

/-- Character whose NFKC image contains one of `/ ? # @ :`. -/
def nfkcSpecial (c : Char) : Bool := nfkcSpecialCodes.contains c.toNat

/-- `_checknetloc`: an empty or all-ASCII netloc never raises; otherwise
`ValueError` is raised exactly when, after removing `@ : # ?`, some
character normalizes (NFKC) to a string containing `/ ? # @ :`. -/
def netlocRaises (netloc : List Char) : Bool :=
  if netloc.isEmpty || netloc.all isAsciiChar then false
  else (netloc.filter fun c => !(c = '@' || c = ':' || c = '#' || c = '?')).any nfkcSpecial

/-- Model of `urlparse(addr).scheme` including the error paths of
`urlsplit` (CPython 3.11 / post-3.9.5 security fixes): preprocess the
URL, split off a scheme, and when the remainder starts with `//` check
the netloc: mismatched `[`/`]` raise `Invalid IPv6 URL`, a bracketed
host must pass `_check_bracketed_host`, and `_checknetloc` can raise for
non-ASCII netlocs.  `none` models a raised `ValueError`; `some scheme`
the parsed (possibly empty) scheme. -/
def urlsplitScheme (s : List Char) : Option (List Char) :=
  let url := urlPreprocess s
  let pr := splitScheme url
  match pr.2 with
  | '/' :: '/' :: tail =>
    let netloc := takeNetloc tail
    if netloc.contains '[' != netloc.contains ']' then none
    else if netloc.contains '[' && netloc.contains ']' then
      if checkBracketedHost (beforeFirst ']' (afterFirst '[' netloc)) then
        if netlocRaises netloc then none else some pr.1
      else none
    else if netlocRaises netloc then none else some pr.1
  | _ => some pr.1

namespace MdLinkParser

/-- Handler `MdLinkParser.handle_data`: buffer the character in DESC or
ADDRESS state; in LINK state restore the literal `[description]`, clear
the description buffer, return to BODY and append the character; in BODY
append the character to the results. -/
def handle_data (p : MdLinkParser) (c : Char) : MdLinkParser :=
  match p.state with
  | .DESC => { p with descBuffer := p.descBuffer ++ [c] }
  | .ADDRESS => { p with addrBuffer := p.addrBuffer ++ [c] }
  | .LINK =>
    { p with
      results := p.results ++ [['['], p.descBuffer, [']'], [c]]
      descBuffer := []
      state := .BODY }
  | .BODY => { p with results := p.results ++ [[c]] }

/-- Handler for `[` (`MdLinkParser.handle_desc_start`). -/
def handle_desc_start (p : MdLinkParser) (c : Char) : MdLinkParser :=
  if p.state = .BODY then { p with state := .DESC } else handle_data p c

/-- Handler for `]` (`MdLinkParser.handle_desc_end`). -/
def handle_desc_end (p : MdLinkParser) (c : Char) : MdLinkParser :=
  if p.state = .DESC then { p with state := .LINK } else handle_data p c

/-- Handler for `(` (`MdLinkParser.handle_addr_start`). -/
def handle_addr_start (p : MdLinkParser) (c : Char) : MdLinkParser :=
  if p.state = .LINK then { p with state := .ADDRESS } else handle_data p c

/-- Handler for `)` (`MdLinkParser.handle_addr_end`): in ADDRESS state,
call `urlparse` on the buffered address (`none` when it raises); emit
the original link when the scheme is non-empty, otherwise a wikilink
from the (`./`-stripped, percent-decoded) address and optional
description, or from the colon-converted description when the address is
empty; then clear both buffers and return to BODY. -/
def handle_addr_end (p : MdLinkParser) (c : Char) : Option MdLinkParser :=
  if p.state = .ADDRESS then
    if p.addrBuffer ≠ [] then
      match urlsplitScheme p.addrBuffer with
      | none => none
      | some scheme =>
        if scheme ≠ [] then
          some { p with
            results := p.results
              ++ [['['], p.descBuffer, [']', '('], p.addrBuffer, [')']]
            addrBuffer := []
            descBuffer := []
            state := .BODY }
        else
          some { p with
            results := p.results
              ++ [['[', '['], unquote (dropDotSlash p.addrBuffer)]
              ++ (if p.descBuffer ≠ [] then [['|'], p.descBuffer] else [])
              ++ [[']', ']']]
            addrBuffer := []
            descBuffer := []
            state := .BODY }
    else
      some { p with
        results := p.results
          ++ [['[', '['], unquote (colonToSlash p.descBuffer), [']', ']']]
        addrBuffer := []
        descBuffer := []
        state := .BODY }
  else some (handle_data p c)

/-- Dispatch of one character (`self.markup.get(c, self.handle_data)(c)`);
only the `)`-handler can raise. -/
def feedChar (p : MdLinkParser) (c : Char) : Option MdLinkParser :=
  if c = '[' then some (handle_desc_start p c)
  else if c = ']' then some (handle_desc_end p c)
  else if c = '(' then some (handle_addr_start p c)
  else if c = ')' then handle_addr_end p c
  else some (handle_data p c)

/-- Method `MdLinkParser.feed`: process each character in sequence; an
exception raised by a handler propagates (`none`). -/
def feed (p : MdLinkParser) (data : List Char) : Option MdLinkParser :=
  match data with
  | [] => some p
  | c :: cs =>
    match feedChar p c with
    | none => none
    | some q => feed q cs

/-- Method `MdLinkParser.reset`: clear results and both buffers, state BODY. -/
def reset (p : MdLinkParser) : MdLinkParser :=
  { p with results := [], descBuffer := [], addrBuffer := [], state := .BODY }

/-- Method `MdLinkParser.close`: flush a non-empty description buffer as
`[` + description and a non-empty address buffer as `](` + address, in
that order, clearing each flushed buffer.  `close` itself cannot raise. -/
def close (p : MdLinkParser) : MdLinkParser :=
  let p1 :=
    if p.descBuffer ≠ [] then
      { p with results := p.results ++ [['['], p.descBuffer], descBuffer := [] }
    else p
  if p1.addrBuffer ≠ [] then
    { p1 with results := p1.results ++ [[']', '('], p1.addrBuffer], addrBuffer := [] }
  else p1

/-- Parser state after `reset(); feed(text); close()` (when no exception
was raised). -/
def run (p : MdLinkParser) (text : List Char) : Option MdLinkParser :=
  (feed (reset p) text).map close

/-- Method `MdLinkParser.to_wikilinks`: `reset(); feed(text); close()`,
then the joined results; `none` when `feed` raised. -/
def to_wikilinks (p : MdLinkParser) (text : List Char) : Option String :=
  (run p text).map fun q => String.mk q.results.flatten

end MdLinkParser

/-- Conversion as the spec's `convert`: `to_wikilinks` on a parser. -/
def convert (text : List Char) : Option String :=
  MdLinkParser.to_wikilinks MdLinkParser.init text

open MdLinkParser

/-- Feeding a character that dispatches without raising, then the rest. -/
theorem feed_cons_some (p q : MdLinkParser) (c : Char) (cs : List Char)
    (h : feedChar p c = some q) : feed p (c :: cs) = feed q cs := by
  simp [feed, h]

/-- Feeding a character that raises aborts the whole feed. -/
theorem feed_cons_none (p : MdLinkParser) (c : Char) (cs : List Char)
    (h : feedChar p c = none) : feed p (c :: cs) = none := by
  simp [feed, h]

/-- Feeding a single character is one dispatch. -/
theorem feed_one (p : MdLinkParser) (c : Char) : feed p [c] = feedChar p c := by
  cases h : feedChar p c <;> simp [feed, h]

/-- Feeding a concatenation is feeding the parts in sequence. -/
theorem feed_append (s t : List Char) : ∀ p : MdLinkParser,
    feed p (s ++ t) = (feed p s).bind fun q => feed q t := by
  induction s with
  | nil => intro p; simp [feed]
  | cons c s ih =>
    intro p
    cases h : feedChar p c with
    | none => simp [feed_cons_none _ _ _ h, List.cons_append, feed, h]
    | some q => simp [List.cons_append, feed_cons_some _ _ _ _ h, feed, h, ih q]

/-- In DESC state every character except `]` is appended to the
description buffer and nothing is raised. -/
theorem feedChar_desc (p : MdLinkParser) (c : Char) (hs : p.state = .DESC)
    (hc : c ≠ ']') :
    feedChar p c = some { p with descBuffer := p.descBuffer ++ [c] } := by
  by_cases h1 : c = '[' <;> by_cases h3 : c = '(' <;> by_cases h4 : c = ')' <;>
    simp_all [feedChar, handle_desc_start, handle_desc_end, handle_addr_start,
      handle_addr_end, handle_data]

/-- In ADDRESS state every character except `)` is appended to the
address buffer and nothing is raised. -/
theorem feedChar_addr (p : MdLinkParser) (c : Char) (hs : p.state = .ADDRESS)
    (hc : c ≠ ')') :
    feedChar p c = some { p with addrBuffer := p.addrBuffer ++ [c] } := by
  by_cases h1 : c = '[' <;> by_cases h2 : c = ']' <;> by_cases h3 : c = '(' <;>
    simp_all [feedChar, handle_desc_start, handle_desc_end, handle_addr_start,
      handle_addr_end, handle_data]

/-- In DESC state a `]`-free text is accumulated into the description
buffer without any other effect. -/
theorem feed_desc (cs : List Char) : ∀ p : MdLinkParser, p.state = .DESC → ']' ∉ cs →
    feed p cs = some { p with descBuffer := p.descBuffer ++ cs } := by
  induction cs with
  | nil => intro p hs _; simp [feed]
  | cons c cs ih =>
    intro p hs hmem
    rw [List.mem_cons, not_or] at hmem
    rw [feed_cons_some _ _ _ _ (feedChar_desc p c hs (fun h => hmem.1 h.symm)),
      ih { p with descBuffer := p.descBuffer ++ [c] } hs hmem.2]
    simp

/-- In ADDRESS state a `)`-free text is accumulated into the address
buffer without any other effect. -/
theorem feed_addr (cs : List Char) : ∀ p : MdLinkParser, p.state = .ADDRESS → ')' ∉ cs →
    feed p cs = some { p with addrBuffer := p.addrBuffer ++ cs } := by
  induction cs with
  | nil => intro p hs _; simp [feed]
  | cons c cs ih =>
    intro p hs hmem
    rw [List.mem_cons, not_or] at hmem
    rw [feed_cons_some _ _ _ _ (feedChar_addr p c hs (fun h => hmem.1 h.symm)),
      ih { p with addrBuffer := p.addrBuffer ++ [c] } hs hmem.2]
    simp

/-- Feeding the opening part `[desc](addr` of a well-formed link from a
fresh parser lands in ADDRESS state with both buffers filled. -/
theorem feed_open (desc addr : List Char) (hd : ']' ∉ desc) (ha : ')' ∉ addr) :
    feed MdLinkParser.init ('[' :: desc ++ ']' :: '(' :: addr) =
      some { results := [], descBuffer := desc, addrBuffer := addr, state := .ADDRESS } := by
  rw [show ('[' :: desc ++ ']' :: '(' :: addr : List Char)
      = '[' :: (desc ++ ']' :: '(' :: addr) from rfl]
  rw [feed_cons_some _ _ _ _ (show feedChar MdLinkParser.init '['
      = some { results := [], descBuffer := [], addrBuffer := [], state := .DESC } from rfl)]
  rw [feed_append]
  rw [feed_desc desc _ rfl hd]
  simp only [List.nil_append, Option.some_bind]
  rw [feed_cons_some _ _ _ _ (show feedChar
        { results := [], descBuffer := desc, addrBuffer := [], state := PState.DESC } ']'
      = some { results := [], descBuffer := desc, addrBuffer := [], state := PState.LINK } from rfl)]
  rw [feed_cons_some _ _ _ _ (show feedChar
        { results := [], descBuffer := desc, addrBuffer := [], state := PState.LINK } '('
      = some { results := [], descBuffer := desc, addrBuffer := [], state := PState.ADDRESS } from rfl)]
  rw [feed_addr addr _ rfl ha]
  simp

/-- Feeding a complete link ends in the `)`-handler applied to the parser
holding the description and address in its buffers. -/
theorem feed_link (desc addr : List Char) (hd : ']' ∉ desc) (ha : ')' ∉ addr) :
    feed MdLinkParser.init ('[' :: desc ++ ']' :: '(' :: addr ++ [')']) =
      handle_addr_end
        { results := [], descBuffer := desc, addrBuffer := addr, state := .ADDRESS } ')' := by
  rw [show ('[' :: desc ++ ']' :: '(' :: addr ++ [')'] : List Char)
      = ('[' :: desc ++ ']' :: '(' :: addr) ++ [')'] from by simp]
  rw [feed_append, feed_open desc addr hd ha, Option.some_bind, feed_one]
  rfl

/-- Counterexample for C1: at the well-formed link `[d](//[)` with the
schemeless, delimiter-free address `//[`, the program does not emit the
wikilink `[[//[|d]]` — `urlparse("//[")` raises `ValueError: Invalid
IPv6 URL`, which propagates out of `convert`. -/
theorem c1_url_error_counterexample :
    convert (String.toList "[d](//[)") = none
      ∧ (none : Option String) ≠ some "[[//[|d]]" := by
  constructor <;> decide

/-- C1 as amended. A well-formed link whose address is non-empty and on
which `urlparse` succeeds with an empty scheme is rewritten to a
wikilink: the address is stripped of one leading `./` and
percent-decoded, and `|desc` is appended exactly when the description is
non-empty. -/
theorem c1_internal_link_to_wikilink (desc addr : List Char)
    (hd : ']' ∉ desc) (ha : ')' ∉ addr) (hne : addr ≠ [])
    (hs : urlsplitScheme addr = some []) :
    convert ('[' :: desc ++ ']' :: '(' :: addr ++ [')']) =
      some (String.mk ('[' :: '[' :: unquote (dropDotSlash addr)
        ++ (if desc = [] then [] else '|' :: desc) ++ [']', ']'])) := by
  unfold convert to_wikilinks run
  rw [show reset MdLinkParser.init = MdLinkParser.init from rfl]
  rw [feed_link desc addr hd ha]
  unfold handle_addr_end
  by_cases hdesc : desc = [] <;>
    simp [hne, hs, hdesc, close]

/-- Counterexample for C2: the address `b://[` parses as having URL
scheme `b`, but the program does not return the link `[x](b://[)`
unchanged — `urlparse("b://[")` raises `ValueError: Invalid IPv6 URL`. -/
theorem c2_url_error_counterexample :
    convert (String.toList "[x](b://[)") = none
      ∧ (none : Option String) ≠ some "[x](b://[)" := by
  constructor <;> decide

/-- C2 as amended. A well-formed link whose address is non-empty and on
which `urlparse` (including its removal of tab/CR/LF and stripping of
leading control characters and spaces) succeeds with a non-empty scheme
is emitted unchanged, as `[` description `](` address `)`. -/
theorem c2_external_link_unchanged (desc addr sch : List Char)
    (hd : ']' ∉ desc) (ha : ')' ∉ addr) (hne : addr ≠ [])
    (hs : urlsplitScheme addr = some sch) (hsch : sch ≠ []) :
    convert ('[' :: desc ++ ']' :: '(' :: addr ++ [')']) =
      some (String.mk ('[' :: desc ++ ']' :: '(' :: addr ++ [')'])) := by
  unfold convert to_wikilinks run
  rw [show reset MdLinkParser.init = MdLinkParser.init from rfl]
  rw [feed_link desc addr hd ha]
  unfold handle_addr_end
  simp [hne, hs, hsch, close]

/-- C3. A link with empty address has its wikilink address synthesized
from the description by replacing `:` with `/` and percent-decoding, with
no description suffix (`urlparse` is never called on this branch). -/
theorem c3_empty_address_synthesized (desc : List Char) (hd : ']' ∉ desc) :
    convert ('[' :: desc ++ [']', '(', ')']) =
      some (String.mk ('[' :: '[' :: unquote (colonToSlash desc) ++ [']', ']'])) := by
  unfold convert to_wikilinks run
  rw [show reset MdLinkParser.init = MdLinkParser.init from rfl]
  rw [show ('[' :: desc ++ [']', '(', ')'] : List Char)
      = '[' :: desc ++ ']' :: '(' :: ([] : List Char) ++ [')'] from by simp]
  rw [feed_link desc [] hd (by simp)]
  unfold handle_addr_end
  simp [close]

/-- Witness for C1 at the three spec examples: `[text](./rel/page.md)`,
`[x](a%20b.md)` and `[](Home.md)`. -/
theorem c1_internal_link_to_wikilink_witness :
    convert ('[' :: String.toList "text" ++ ']' :: '(' :: String.toList "./rel/page.md" ++ [')'])
        = some "[[rel/page.md|text]]"
    ∧ convert ('[' :: String.toList "x" ++ ']' :: '(' :: String.toList "a%20b.md" ++ [')'])
        = some "[[a b.md|x]]"
    ∧ convert ('[' :: String.toList "" ++ ']' :: '(' :: String.toList "Home.md" ++ [')'])
        = some "[[Home.md]]" :=
  ⟨(c1_internal_link_to_wikilink _ _ (by decide) (by decide) (by decide) (by decide)).trans
      (by decide),
    (c1_internal_link_to_wikilink _ _ (by decide) (by decide) (by decide) (by decide)).trans
      (by decide),
    (c1_internal_link_to_wikilink _ _ (by decide) (by decide) (by decide) (by decide)).trans
      (by decide)⟩

/-- Witness for C2 at `[D](http://x)`, at `[desc](mailto:joe)`, and at an
address containing a tab (removed by urlsplit preprocessing, so the
scheme `htp` is recognized and the link kept unchanged). -/
theorem c2_external_link_unchanged_witness :
    convert ('[' :: String.toList "D" ++ ']' :: '(' :: String.toList "http://x" ++ [')'])
        = some "[D](http://x)"
    ∧ convert ('[' :: String.toList "desc" ++ ']' :: '(' :: String.toList "mailto:joe" ++ [')'])
        = some "[desc](mailto:joe)"
    ∧ convert ('[' :: String.toList "x" ++ ']' :: '(' :: String.toList "ht\tp://y" ++ [')'])
        = some "[x](ht\tp://y)" :=
  ⟨(c2_external_link_unchanged _ _ (String.toList "http") (by decide) (by decide)
      (by decide) (by decide) (by decide)).trans (by decide),
    (c2_external_link_unchanged _ _ (String.toList "mailto") (by decide) (by decide)
      (by decide) (by decide) (by decide)).trans (by decide),
    (c2_external_link_unchanged _ _ (String.toList "htp") (by decide) (by decide)
      (by decide) (by decide) (by decide)).trans (by decide)⟩

/-- Witness for C3 at the spec examples `[Home]()` and `[A:B]()`. -/
theorem c3_empty_address_synthesized_witness :
    convert ('[' :: String.toList "Home" ++ [']', '(', ')']) = some "[[Home]]"
    ∧ convert ('[' :: String.toList "A:B" ++ [']', '(', ')']) = some "[[A/B]]" :=
  ⟨(c3_empty_address_synthesized _ (by decide)).trans (by decide),
    (c3_empty_address_synthesized _ (by decide)).trans (by decide)⟩

/-- Counterexample for C4: `[](a` has a delimiter-free description `""`
and address `"a"`, but `convert` drops the `[`, returning `](a`. -/
theorem c4_flush_counterexample :
    convert (String.toList "[](a") = some "](a"
      ∧ (some "](a" : Option String) ≠ some "[](a" := by
  constructor <;> decide

/-- C4 as amended: `close()` emits `[` + description only when the
description buffer is non-empty and `](` + address only when the address
buffer is non-empty, so `convert("[incomplete")` is unchanged and a
truncated link `[` d `](` a is preserved byte-for-byte whenever both d
and a are non-empty (when either is empty its delimiters are dropped). -/
theorem c4_flush_amended :
    convert (String.toList "[incomplete") = some "[incomplete"
    ∧ ∀ d a : List Char, ']' ∉ d → ')' ∉ a → d ≠ [] → a ≠ [] →
        convert ('[' :: d ++ ']' :: '(' :: a) = some (String.mk ('[' :: d ++ ']' :: '(' :: a)) := by
  constructor
  · decide
  · intro d a hd ha hdne hane
    unfold convert to_wikilinks run
    rw [show reset MdLinkParser.init = MdLinkParser.init from rfl]
    rw [feed_open d a hd ha]
    simp [close, hdne, hane]

/-- Witness for C4 (amended) at `[d](a`. -/
theorem c4_flush_amended_witness :
    convert ('[' :: String.toList "d" ++ ']' :: '(' :: String.toList "a")
      = some (String.mk ('[' :: String.toList "d" ++ ']' :: '(' :: String.toList "a")) :=
  c4_flush_amended.2 _ _ (by decide) (by decide) (by decide) (by decide)

/-- Counterexample for C5: a `[` leaving LINK state does not start a new
link description, so `[A][B](x.md)` is returned unchanged instead of
becoming `[A][[x.md|B]]`. -/
theorem c5_link_exit_counterexample :
    convert (String.toList "[A][B](x.md)") = some "[A][B](x.md)"
      ∧ (some "[A][B](x.md)" : Option String) ≠ some "[A][[x.md|B]]" := by
  constructor <;> decide

/-- C5 as amended: leaving LINK state on any character other than `(`
restores the literal `[description]`, clears the description buffer,
returns to BODY, and appends the triggering character literally to the
result (it is not re-dispatched, so a triggering `[` does not open a new
description, and no exception is possible). -/
theorem c5_link_exit_amended :
    (∀ (p : MdLinkParser) (c : Char), p.state = .LINK → c ≠ '(' →
      feedChar p c =
        some { p with
          results := p.results ++ [['['], p.descBuffer, [']'], [c]]
          descBuffer := []
          state := .BODY })
    ∧ convert (String.toList "[A][B](x.md)") = some "[A][B](x.md)" := by
  constructor
  · intro p c hs hc
    by_cases h1 : c = '[' <;> by_cases h2 : c = ']' <;> by_cases h4 : c = ')' <;>
      simp_all [feedChar, handle_desc_start, handle_desc_end, handle_addr_start,
        handle_addr_end, handle_data]
  · decide

/-- Witness for C5 (amended): a `[` arriving in LINK state is emitted
literally after the restored `[A]`. -/
theorem c5_link_exit_amended_witness :
    feedChar { results := [], descBuffer := ['A'], addrBuffer := [], state := .LINK } '['
      = some { results := [['['], ['A'], [']'], ['[']], descBuffer := [],
               addrBuffer := [], state := .BODY } :=
  (c5_link_exit_amended.1
    { results := [], descBuffer := ['A'], addrBuffer := [], state := .LINK } '['
    rfl (by decide)).trans (by decide)

/-- Decoding a list of ASCII bytes is a plain character conversion. -/
theorem utf8DecodeAux_ascii : ∀ (fuel : Nat) (bs : List Nat), bs.length ≤ fuel →
    (∀ b ∈ bs, b ≤ 0x7F) → utf8DecodeAux fuel bs = bs.map Char.ofNat := by
  intro fuel
  induction fuel with
  | zero =>
    intro bs hlen _
    rw [List.length_eq_zero.mp (Nat.le_zero.mp hlen)]
    rfl
  | succ n ih =>
    intro bs hlen hasc
    cases bs with
    | nil => rfl
    | cons b rest =>
      have hb : b ≤ 0x7F := hasc b (List.mem_cons_self b rest)
      have hstep : utf8DecodeAux (n + 1) (b :: rest)
          = Char.ofNat b :: utf8DecodeAux n rest := by
        rw [utf8DecodeAux.eq_def]
        simp [hb]
      rw [hstep, ih rest (Nat.succ_le_succ_iff.mp (by simpa using hlen))
        (fun x hx => hasc x (List.mem_cons_of_mem _ hx))]
      rfl

/-- Same statement for the fuelled decoder's wrapper. -/
theorem utf8Decode_ascii (bs : List Nat) (h : ∀ b ∈ bs, b ≤ 0x7F) :
    utf8Decode bs = bs.map Char.ofNat :=
  utf8DecodeAux_ascii bs.length bs le_rfl h

/-- On `%`-free input, scanning and decoding the token stream returns the
decoded pending bytes followed by the input itself. -/
theorem tokensDecode_no_pct : ∀ (s : List Char) (pend : List Nat), '%' ∉ s →
    (∀ b ∈ pend, b ≤ 0x7F) →
    tokensDecode (pctTokens s) pend = (pend.reverse.map Char.ofNat) ++ s := by
  intro s
  induction s with
  | nil =>
    intro pend _ hp
    show utf8Decode pend.reverse = _
    rw [utf8Decode_ascii _ (fun b hb => hp b (List.mem_reverse.mp hb))]
    simp
  | cons c rest ih =>
    intro pend hmem hp
    rw [List.mem_cons, not_or] at hmem
    have hc : c ≠ '%' := fun h => hmem.1 h.symm
    have hpct : pctTokens (c :: rest)
        = (if c.toNat ≤ 0x7F then UQToken.byte c.toNat else UQToken.raw c)
          :: pctTokens rest := by
      rw [pctTokens.eq_def]
      split <;> simp_all
    by_cases hascii : c.toNat ≤ 0x7F
    · rw [hpct, if_pos hascii]
      show tokensDecode (pctTokens rest) (c.toNat :: pend) = _
      rw [ih (c.toNat :: pend) hmem.2 ?_]
      · simp [Char.ofNat_toNat]
      · intro b hb
        rcases List.mem_cons.mp hb with h | h
        · exact h ▸ hascii
        · exact hp b h
    · rw [hpct, if_neg hascii]
      show utf8Decode pend.reverse ++ c :: tokensDecode (pctTokens rest) [] = _
      rw [ih [] hmem.2 (by simp),
        utf8Decode_ascii _ (fun b hb => hp b (List.mem_reverse.mp hb))]
      simp

/-- Percent-decoding a string with no `%` character is the identity. -/
theorem unquote_no_pct (s : List Char) (h : '%' ∉ s) : unquote s = s := by
  unfold unquote
  rw [tokensDecode_no_pct s [] h (by simp)]
  simp

/-- Colon substitution on a colon-free string is the identity. -/
theorem colonToSlash_no_colon : ∀ s : List Char, ':' ∉ s → colonToSlash s = s := by
  intro s
  induction s with
  | nil => intro _; rfl
  | cons c rest ih =>
    intro h
    rw [List.mem_cons, not_or] at h
    show (if c = ':' then '/' else c) :: colonToSlash rest = c :: rest
    rw [if_neg (fun hc => h.1 hc.symm), ih h.2]

/-- Dropping a leading `./` from a dot-free string is the identity. -/
theorem dropDotSlash_no_dot (s : List Char) (h : '.' ∉ s) : dropDotSlash s = s := by
  rw [dropDotSlash.eq_def]
  split <;> simp_all

/-- Every character ever held by the parser: emitted results, then the
description buffer, then the address buffer. -/
def bag (p : MdLinkParser) : List Char :=
  p.results.flatten ++ p.descBuffer ++ p.addrBuffer

/-- Buffer conditions under which the address rewriting steps
(percent-decode, `./`-strip, colon substitution) change no character. -/
def goodBufs (p : MdLinkParser) : Prop :=
  ':' ∉ p.descBuffer ∧ '%' ∉ p.descBuffer ∧ '.' ∉ p.addrBuffer ∧ '%' ∉ p.addrBuffer

/-- One dispatch step that does not raise loses no occurrence of a
non-delimiter character, and preserves the buffer conditions, when the
incoming character is not `%`, `:` or `.`. -/
theorem feedChar_count_step (p : MdLinkParser) (c : Char) (p' : MdLinkParser)
    (hstep : feedChar p c = some p')
    (hg : goodBufs p) (hc1 : c ≠ '%') (hc2 : c ≠ ':') (hc3 : c ≠ '.') :
    goodBufs p'
    ∧ ∀ x : Char, x ≠ '[' → x ≠ ']' → x ≠ '(' → x ≠ ')' →
        List.count x (bag p) + List.count x [c] ≤ List.count x (bag p') := by
  obtain ⟨res, d, a, st⟩ := p
  obtain ⟨hg1, hg2, hg3, hg4⟩ := hg
  cases st
  case BODY =>
    by_cases h1 : c = '['
    · subst h1
      rw [show feedChar ⟨res, d, a, .BODY⟩ '[' = some ⟨res, d, a, .DESC⟩ from rfl] at hstep
      obtain rfl := Option.some.inj hstep
      exact ⟨⟨hg1, hg2, hg3, hg4⟩, fun x hx1 hx2 hx3 hx4 => by
        simp [bag, List.count_cons, Ne.symm hx1]⟩
    · rw [show feedChar ⟨res, d, a, .BODY⟩ c = some ⟨res ++ [[c]], d, a, .BODY⟩ from by
        by_cases h2 : c = ']' <;> by_cases h3 : c = '(' <;> by_cases h4 : c = ')' <;>
          simp_all [feedChar, handle_desc_start, handle_desc_end, handle_addr_start,
            handle_addr_end, handle_data]] at hstep
      obtain rfl := Option.some.inj hstep
      exact ⟨⟨hg1, hg2, hg3, hg4⟩, fun x hx1 hx2 hx3 hx4 => by
        simp [bag, List.count_append, List.count_cons, List.count_nil] <;> omega⟩
  case DESC =>
    by_cases h2 : c = ']'
    · subst h2
      rw [show feedChar ⟨res, d, a, .DESC⟩ ']' = some ⟨res, d, a, .LINK⟩ from rfl] at hstep
      obtain rfl := Option.some.inj hstep
      exact ⟨⟨hg1, hg2, hg3, hg4⟩, fun x hx1 hx2 hx3 hx4 => by
        simp [bag, List.count_cons, Ne.symm hx2]⟩
    · rw [feedChar_desc ⟨res, d, a, .DESC⟩ c rfl h2] at hstep
      obtain rfl := Option.some.inj hstep
      refine ⟨⟨?_, ?_, hg3, hg4⟩, fun x hx1 hx2 hx3 hx4 => by
        simp [bag, List.count_append, List.count_cons, List.count_nil] <;> omega⟩
      · intro hmem
        rcases List.mem_append.mp hmem with h | h
        · exact hg1 h
        · exact hc2 (List.mem_singleton.mp h).symm
      · intro hmem
        rcases List.mem_append.mp hmem with h | h
        · exact hg2 h
        · exact hc1 (List.mem_singleton.mp h).symm
  case LINK =>
    by_cases h3 : c = '('
    · subst h3
      rw [show feedChar ⟨res, d, a, .LINK⟩ '(' = some ⟨res, d, a, .ADDRESS⟩ from rfl] at hstep
      obtain rfl := Option.some.inj hstep
      exact ⟨⟨hg1, hg2, hg3, hg4⟩, fun x hx1 hx2 hx3 hx4 => by
        simp [bag, List.count_cons, Ne.symm hx3]⟩
    · rw [show feedChar ⟨res, d, a, .LINK⟩ c
          = some ⟨res ++ [['['], d, [']'], [c]], [], a, .BODY⟩ from by
        by_cases h1 : c = '[' <;> by_cases h2 : c = ']' <;> by_cases h4 : c = ')' <;>
          simp_all [feedChar, handle_desc_start, handle_desc_end, handle_addr_start,
            handle_addr_end, handle_data]] at hstep
      obtain rfl := Option.some.inj hstep
      refine ⟨⟨by simp, by simp, hg3, hg4⟩, fun x hx1 hx2 hx3 hx4 => ?_⟩
      simp [bag, List.count_append, List.count_cons, List.count_nil, Ne.symm hx1,
        Ne.symm hx2] <;> omega
  case ADDRESS =>
    by_cases h4 : c = ')'
    · subst h4
      rw [show feedChar ⟨res, d, a, .ADDRESS⟩ ')'
          = handle_addr_end ⟨res, d, a, .ADDRESS⟩ ')' from rfl] at hstep
      by_cases hae : a = []
      · subst hae
        rw [show handle_addr_end ⟨res, d, [], .ADDRESS⟩ ')'
            = some ⟨res ++ [['[', '['], unquote (colonToSlash d), [']', ']']],
              [], [], .BODY⟩ from rfl] at hstep
        obtain rfl := Option.some.inj hstep
        refine ⟨⟨by simp, by simp, by simp, by simp⟩, fun x hx1 hx2 hx3 hx4 => ?_⟩
        rw [show bag ⟨res ++ [['[', '['], unquote (colonToSlash d), [']', ']']],
            [], [], .BODY⟩
          = bag ⟨res ++ [['[', '['], d, [']', ']']], [], [], .BODY⟩ from by
            rw [colonToSlash_no_colon d hg1, unquote_no_pct d hg2]]
        simp [bag, List.count_append, List.count_cons, List.count_nil, Ne.symm hx1,
          Ne.symm hx2, Ne.symm hx4] <;> omega
      · unfold handle_addr_end at hstep
        simp only [MdLinkParser.state, MdLinkParser.addrBuffer, MdLinkParser.descBuffer,
          MdLinkParser.results, reduceIte, ne_eq, hae, not_false_eq_true] at hstep
        cases hsch : urlsplitScheme a with
        | none => rw [hsch] at hstep; simp at hstep
        | some sch =>
          rw [hsch] at hstep
          by_cases hschne : sch = []
          · subst hschne
            simp only [ne_eq, not_true_eq_false, reduceIte, Option.some.injEq] at hstep
            obtain rfl := hstep.symm
            refine ⟨⟨by simp, by simp, by simp, by simp⟩, fun x hx1 hx2 hx3 hx4 => ?_⟩
            rw [show unquote (dropDotSlash a) = a from by
              rw [dropDotSlash_no_dot a hg3, unquote_no_pct a hg4]]
            by_cases hd : d = []
            · subst hd
              simp [bag, List.count_append, List.count_cons, List.count_nil, Ne.symm hx1,
                Ne.symm hx2, Ne.symm hx4] <;> omega
            · simp [bag, hd, List.count_append, List.count_cons, List.count_nil, Ne.symm hx1,
                Ne.symm hx2, Ne.symm hx4] <;> omega
          · simp only [ne_eq, hschne, not_false_eq_true, reduceIte,
              Option.some.injEq] at hstep
            obtain rfl := hstep.symm
            refine ⟨⟨by simp, by simp, by simp, by simp⟩, fun x hx1 hx2 hx3 hx4 => ?_⟩
            simp [bag, List.count_append, List.count_cons, List.count_nil, Ne.symm hx1,
              Ne.symm hx2, Ne.symm hx3, Ne.symm hx4] <;> omega
    · rw [feedChar_addr ⟨res, d, a, .ADDRESS⟩ c rfl h4] at hstep
      obtain rfl := Option.some.inj hstep
      refine ⟨⟨hg1, hg2, ?_, ?_⟩, fun x hx1 hx2 hx3 hx4 => by
        simp [bag, List.count_append, List.count_cons, List.count_nil] <;> omega⟩
      · intro hmem
        rcases List.mem_append.mp hmem with h | h
        · exact hg3 h
        · exact hc3 (List.mem_singleton.mp h).symm
      · intro hmem
        rcases List.mem_append.mp hmem with h | h
        · exact hg4 h
        · exact hc1 (List.mem_singleton.mp h).symm

/-- Feeding a `%`/`:`/`.`-free text that does not raise loses no
occurrence of any non-delimiter character. -/
theorem feed_count (text : List Char) : ∀ p p' : MdLinkParser,
    feed p text = some p' → goodBufs p →
    (∀ ch ∈ text, ch ≠ '%' ∧ ch ≠ ':' ∧ ch ≠ '.') →
    goodBufs p'
    ∧ ∀ x : Char, x ≠ '[' → x ≠ ']' → x ≠ '(' → x ≠ ')' →
        List.count x (bag p) + List.count x text ≤ List.count x (bag p') := by
  induction text with
  | nil =>
    intro p p' hf hg _
    obtain rfl : p = p' := Option.some.inj hf
    exact ⟨hg, fun x _ _ _ _ => by simp⟩
  | cons c rest ih =>
    intro p p' hf hg hmem
    cases hmid : feedChar p c with
    | none => rw [feed_cons_none _ _ _ hmid] at hf; exact absurd hf (by simp)
    | some mid =>
      rw [feed_cons_some _ _ _ _ hmid] at hf
      have hc := hmem c (List.mem_cons_self c rest)
      obtain ⟨hga, cnt⟩ := feedChar_count_step p c mid hmid hg hc.1 hc.2.1 hc.2.2
      obtain ⟨hgb, cnt'⟩ := ih mid p' hf hga
        (fun ch h => hmem ch (List.mem_cons_of_mem _ h))
      refine ⟨hgb, fun x hx1 hx2 hx3 hx4 => ?_⟩
      have a1 := cnt x hx1 hx2 hx3 hx4
      have a2 := cnt' x hx1 hx2 hx3 hx4
      have e1 : List.count x (c :: rest) = List.count x [c] + List.count x rest := by
        rw [show (c :: rest : List Char) = [c] ++ rest from rfl, List.count_append]
      omega

/-- Closing only moves buffered characters (plus delimiters) into the
results: no count decreases. -/
theorem count_close (p : MdLinkParser) (x : Char) :
    List.count x (bag p) ≤ List.count x (bag (close p)) := by
  unfold close bag
  by_cases h1 : p.descBuffer = [] <;> by_cases h2 : p.addrBuffer = [] <;>
    simp [h1, h2, List.count_append, List.count_cons, List.count_nil] <;> omega

/-- Closing empties both buffers, so the bag is the flattened results. -/
theorem bag_close (p : MdLinkParser) :
    bag (close p) = (close p).results.flatten := by
  unfold close bag
  by_cases h1 : p.descBuffer = [] <;> by_cases h2 : p.addrBuffer = [] <;>
    simp [h1, h2]

/-- Counterexample for C6: `%`, `2` and `0` are not delimiter characters,
yet `convert "[x](a%20b.md)" = "[[a b.md|x]]"` has no `%` left. -/
theorem c6_no_loss_counterexample :
    convert (String.toList "[x](a%20b.md)") = some "[[a b.md|x]]"
      ∧ '%' ∈ String.toList "[x](a%20b.md)"
      ∧ '%' ∉ String.toList "[[a b.md|x]]" := by
  refine ⟨by decide, by decide, by decide⟩

/-- C6 as amended: when the input contains none of `%`, `:`, `.` (so
percent-decoding, colon substitution and `./`-stripping cannot rewrite
characters) and `convert` returns a result rather than propagating a
`ValueError` from `urlparse`, no occurrence of a non-delimiter character
is lost. -/
theorem c6_no_loss_amended (text : List Char) (out : String)
    (h : ∀ ch ∈ text, ch ≠ '%' ∧ ch ≠ ':' ∧ ch ≠ '.')
    (hconv : convert text = some out)
    (x : Char) (hx1 : x ≠ '[') (hx2 : x ≠ ']') (hx3 : x ≠ '(') (hx4 : x ≠ ')') :
    List.count x text ≤ List.count x out.toList := by
  unfold convert to_wikilinks run at hconv
  rw [show reset MdLinkParser.init = MdLinkParser.init from rfl,
    Option.map_map] at hconv
  obtain ⟨q, hq, hout⟩ := Option.map_eq_some'.mp hconv
  have hg : goodBufs MdLinkParser.init := by
    simp [goodBufs, MdLinkParser.init]
  obtain ⟨_, cnt⟩ := feed_count text MdLinkParser.init q hq hg h
  have a1 := cnt x hx1 hx2 hx3 hx4
  have a2 := count_close q x
  have e2 := bag_close q
  have e3 : List.count x (bag MdLinkParser.init) = 0 := rfl
  have e4 : out.toList = (close q).results.flatten := by
    rw [← hout]
    rfl
  rw [e4, ← e2]
  omega

/-- Witness for C6 (amended) at `[hello](world)` and the character `w`. -/
theorem c6_no_loss_amended_witness :
    List.count 'w' (String.toList "[hello](world)")
      ≤ List.count 'w' (String.toList "[[world|hello]]") :=
  c6_no_loss_amended (String.toList "[hello](world)") "[[world|hello]]" (by decide)
    (by decide) 'w' (by decide) (by decide) (by decide) (by decide)

/-- C7. `to_wikilinks` is `reset(); feed(text); close()` followed by
joining the result fragments, and feed calls compose: feeding `s` then
`t` (propagating an exception from the first part) is feeding `s ++ t`,
so a split stream converts like the concatenation. -/
theorem c7_convert_is_reset_feed_close :
    (∀ (p : MdLinkParser) (text : List Char),
      to_wikilinks p text
        = (feed (reset p) text).map fun q => String.mk (close q).results.flatten)
    ∧ (∀ (p : MdLinkParser) (s t : List Char),
        ((feed p s).bind fun q => feed q t) = feed p (s ++ t))
    ∧ (∀ (p : MdLinkParser) (s t : List Char),
        (((feed (reset p) s).bind fun q => feed q t).map
            fun q => String.mk (close q).results.flatten)
          = to_wikilinks p (s ++ t)) := by
  refine ⟨fun p text => ?_, fun p s t => (feed_append s t (p := p)).symm, fun p s t => ?_⟩
  · unfold to_wikilinks run
    rw [Option.map_map]
    rfl
  · rw [show ((feed (reset p) s).bind fun q => feed q t) = feed (reset p) (s ++ t) from
      (feed_append s t (p := reset p)).symm]
    unfold to_wikilinks run
    rw [Option.map_map]
    rfl

/-- C8 evaluated at the failing input: the line `[d](a://[)` reaches the
`)`-handler with address buffer `a://[`, and `urlparse("a://[")` raises
`ValueError: Invalid IPv6 URL`, so `convert` does not return a string
(the claim and the spec say it is total and never raises). -/
theorem c8_convert_raises_valueerror :
    convert (String.toList "[d](a://[)") = none
      ∧ convert (String.toList "[d](xy)") = some "[[xy|d]]" := by
  constructor <;> decide

/-- C9. `to_wikilinks` begins with `reset()`, so its result (and the
final parser state) is independent of any prior history of the
instance: it agrees with a freshly constructed parser. -/
theorem c9_history_independent :
    ∀ (p : MdLinkParser) (text : List Char),
      to_wikilinks p text = to_wikilinks MdLinkParser.init text
        ∧ run p text = run MdLinkParser.init text := by
  intro p text
  have h : reset p = reset MdLinkParser.init := rfl
  constructor
  · unfold to_wikilinks run
    rw [h]
  · unfold run
    rw [h]

/-- C10. `close()` clears both buffers and only appends to the results,
leaving the state field unchanged; after `reset(); feed("[x]"); close()`
the state is LINK, not BODY, and only `reset()` sets the state to BODY. -/
theorem c10_close_keeps_state :
    (∀ p : MdLinkParser,
      (close p).state = p.state
      ∧ (close p).descBuffer = []
      ∧ (close p).addrBuffer = []
      ∧ ∃ tail, (close p).results = p.results ++ tail)
    ∧ ((feed (reset MdLinkParser.init) (String.toList "[x]")).map
        fun q => (close q).state) = some PState.LINK
    ∧ PState.LINK ≠ PState.BODY
    ∧ (∀ p : MdLinkParser, (reset p).state = .BODY) := by
  refine ⟨fun p => ?_, by decide, by decide, fun p => rfl⟩
  unfold close
  by_cases h1 : p.descBuffer = [] <;> by_cases h2 : p.addrBuffer = [] <;>
    simp [h1, h2]

end Zim
